import Mathlib

/-!
Verification development for the WFX component-index subsystem
(`scripts/build_component_index.py` and `src/wfx/_assets/component_loader.py`).

The Python code is shallowly embedded: Python dicts become association
lists with Python's insert-or-update-in-place semantics (`dinsert`),
Python strings become Lean `String`s manipulated through executable
helpers over their character lists (the built-in `String` order and
substring functions do not reduce in the kernel, so the helpers are
written by structural recursion on `List Char`), the filesystem becomes
an explicit snapshot value, and exception control flow becomes
`Option`/`Except` plumbing.
-/

/-! ## Python dict semantics over association lists

A Python `dict` preserves insertion order; assigning to an existing key
replaces the value in place, assigning to a fresh key appends at the end.
-/

abbrev Dict (α : Type) := List (String × α)

/-- `d[k]` lookup: first (unique, for dicts) binding of `k`. -/
def dget {α : Type} (k : String) : Dict α → Option α
  | [] => none
  | (k', v) :: rest => if k' = k then some v else dget k rest

/-- `d[k] = v` assignment: replace in place, or append when `k` is fresh. -/
def dinsert {α : Type} (k : String) (v : α) : Dict α → Dict α
  | [] => [(k, v)]
  | (k', v') :: rest => if k' = k then (k, v) :: rest else (k', v') :: dinsert k v rest

/-- Keys of an association list, in order. -/
def dkeys {α : Type} (l : Dict α) : List String := l.map Prod.fst

/-! ## Python string helpers

All helpers are structural recursions over `String.data`, mirroring the
CPython behaviour of the string operations the two source files use.
-/

/-- Python `s.split("\n")` (and generally split on a single character). -/
def splitCharAux (c : Char) : List Char → List (List Char)
  | [] => [[]]
  | x :: xs =>
    match splitCharAux c xs with
    | [] => [[x]]
    | g :: gs => if x = c then [] :: g :: gs else (x :: g) :: gs

def pySplitLines (s : String) : List String :=
  (splitCharAux '\n' s.data).map String.mk

/-- Python `"\n".join(lines)`. -/
def joinNl (lines : List String) : String :=
  String.mk (List.intercalate ['\n'] (lines.map String.data))

/-- Python `s.strip()`: remove leading/trailing whitespace. -/
def pyStrip (s : String) : String :=
  String.mk ((((s.data.dropWhile Char.isWhitespace).reverse).dropWhile Char.isWhitespace).reverse)

/-- Python `s.strip(chars)`: remove leading/trailing characters drawn from `cs`. -/
def pyStripChars (cs : List Char) (s : String) : String :=
  String.mk ((((s.data.dropWhile (cs.contains ·)).reverse).dropWhile (cs.contains ·)).reverse)

/-- Python `s.startswith(p)`. -/
def pyStartsWith (s p : String) : Bool := p.data.isPrefixOf s.data

/-- Python `s.endswith(p)`. -/
def pyEndsWith (s p : String) : Bool := p.data.isSuffixOf s.data

/-- Python `s.lower()` (ASCII: what the loader feeds it). -/
def pyLower (s : String) : String := String.mk (s.data.map Char.toLower)

/-- Index of the first occurrence of `pat` in `l`, if any. -/
def findSub (pat : List Char) : List Char → Option Nat
  | [] => if pat.isPrefixOf ([] : List Char) then some 0 else none
  | x :: xs =>
    if pat.isPrefixOf (x :: xs) then some 0
    else (findSub pat xs).map (· + 1)

/-- Python `pat in s` (substring containment). -/
def containsSub (pat s : String) : Bool := (findSub pat.data s.data).isSome

/-- Python `s.split(pat)` for a non-empty separator `pat`; fuel-driven
(the fuel `s.length + 1` always suffices since each step consumes at
least one character past the match position). -/
def splitSubAux (pat : List Char) : Nat → List Char → List (List Char)
  | 0, l => [l]
  | fuel + 1, l =>
    match findSub pat l with
    | none => [l]
    | some i => l.take i :: splitSubAux pat fuel (l.drop (i + pat.length))

def pySplitSub (pat s : String) : List String :=
  (splitSubAux pat.data (s.data.length + 1) s.data).map String.mk

/-- Python `s.split()` (split on whitespace runs, no empty pieces). -/
def splitWsAux : List Char → List Char → List (List Char)
  | [], acc => if acc.isEmpty then [] else [acc.reverse]
  | x :: xs, acc =>
    if x.isWhitespace then
      if acc.isEmpty then splitWsAux xs [] else acc.reverse :: splitWsAux xs []
    else splitWsAux xs (x :: acc)

def pySplitWs (s : String) : List String :=
  (splitWsAux s.data []).map String.mk

/-- Python `s.count(c)` for a single-character needle. -/
def countChar (c : Char) (s : String) : Nat := s.data.count c

/-- Lexicographic (code-point) comparison, Python's `str` order. -/
def charListLe : List Char → List Char → Bool
  | [], _ => true
  | _ :: _, [] => false
  | a :: as, b :: bs =>
    if a.toNat < b.toNat then true
    else if b.toNat < a.toNat then false
    else charListLe as bs

def strLe (a b : String) : Bool := charListLe a.data b.data

/-- The double-quote and single-quote characters (kept out of string
literals on purpose). -/
def dqChar : Char := Char.ofNat 34

def sqChar : Char := Char.ofNat 39

/-- Python string literal `'"""'`. -/
def tripleDq : String := String.mk [dqChar, dqChar, dqChar]

/-- Python string literal `"'''"`. -/
def tripleSq : String := String.mk [sqChar, sqChar, sqChar]

def lbraceChar : Char := Char.ofNat 123

def rbraceChar : Char := Char.ofNat 125

/-! ## Data model (the JSON catalog shape, typed)

The persisted catalog document has the fixed schema of section 6 of the
builder's output: `metadata` / `components` / `modules` / `categories`.
The four top-level keys, and the fixed keys of each object, become
structure fields; the open-keyed mappings stay `Dict`s.
-/

/-- `info` record of one component (`_extract_component_info` output). -/
structure ComponentInfo where
  description : String
  inputs : List String
  outputs : List String
  dependencies : List String
  tags : List String
deriving Repr, DecidableEq

/-- One entry of the `components` mapping. -/
structure ComponentDescriptor where
  module : String
  name : String
  file_path : String
  full_path : String
  category : String
  info : ComponentInfo
deriving Repr, DecidableEq

/-- One entry of the `modules` mapping. -/
structure ModuleDescriptor where
  name : String
  category : String
  dynamic_imports : Dict String
  component_count : Nat
deriving Repr, DecidableEq

/-- The `metadata` object. `generated_at` is `None` until a scan
completes; `selective_modules` is present only on filtered builds. -/
structure IndexMetadata where
  version : String
  generated_at : Option String
  total_components : Nat
  total_modules : Nat
  selective_modules : Option (List String)
deriving Repr, DecidableEq

/-- The catalog: the unit the builder produces and the loader consumes. -/
structure Catalog where
  metadata : IndexMetadata
  components : Dict ComponentDescriptor
  modules : Dict ModuleDescriptor
  categories : Dict (List String)
deriving Repr, DecidableEq

/-- `ComponentIndexBuilder.__init__`: the empty index skeleton. -/
def initIndex : Catalog :=
  { metadata := { version := "1.0", generated_at := none,
                  total_components := 0, total_modules := 0,
                  selective_modules := none },
    components := [], modules := [], categories := [] }

/-! ## Filesystem snapshot consumed by the builder -/

/-- One entry of `components_path.iterdir()`: a candidate module
directory (`initContent = none` models a missing `__init__.py`; `files`
maps each declared relative path `p` to the text of `<dir>/<p>.py`). -/
structure ModuleDirEntry where
  name : String
  isDir : Bool
  initContent : Option String
  files : Dict String
deriving Repr, DecidableEq

/-- The components root: its `iterdir()` listing (arbitrary order). -/
structure FileSys where
  entries : List ModuleDirEntry
deriving Repr, DecidableEq

/-! ## `ComponentIndexBuilder._extract_dynamic_imports` -/

/-- The literal `"_dynamic_imports = {"` the extractor looks for. -/
def dynHeader : String := "_dynamic_imports = " ++ String.mk [lbraceChar]

/-- The literal `'"__module__"'` substring test. -/
def moduleSentinelQuoted : String := String.mk [dqChar] ++ "__module__" ++ String.mk [dqChar]

/-- The collection loop once `in_dynamic_imports` is true: append each
stripped line, track brace nesting, stop when the count reaches zero.
A line that again matches the header resets the count to 1 (the `if`
branch of the Python loop also fires while collecting). -/
def collectAfter : List String → Int → List String → List String
  | [], _, acc => acc
  | line :: rest, bc, acc =>
    let stripped := pyStrip line
    if pyStartsWith stripped dynHeader then collectAfter rest 1 (acc ++ [stripped])
    else
      let acc2 := acc ++ [stripped]
      let bc2 := bc + (countChar lbraceChar stripped : Int) - (countChar rbraceChar stripped : Int)
      if bc2 ≤ 0 then acc2 else collectAfter rest bc2 acc2

/-- Scan down the lines until the `_dynamic_imports = {` header. -/
def collectDictLines : List String → List String
  | [] => []
  | line :: rest =>
    let stripped := pyStrip line
    if pyStartsWith stripped dynHeader then collectAfter rest 1 [stripped]
    else collectDictLines rest

/-- One attempt of the regex `"([^"]+)":\s*"([^"]*)"` anchored at the
head of `l`; on success returns the two capture groups and the input
remaining after the match. -/
def matchPairAt (l : List Char) : Option (String × String × List Char) :=
  match l with
  | [] => none
  | c :: rest =>
    if c = dqChar then
      let kcs := rest.takeWhile (· ≠ dqChar)
      let rest1 := rest.dropWhile (· ≠ dqChar)
      if kcs.isEmpty then none
      else
        match rest1 with
        | [] => none
        | _ :: rest2 =>
          match rest2 with
          | [] => none
          | c2 :: rest3 =>
            if c2 = ':' then
              let rest4 := rest3.dropWhile Char.isWhitespace
              match rest4 with
              | [] => none
              | c3 :: rest5 =>
                if c3 = dqChar then
                  let vcs := rest5.takeWhile (· ≠ dqChar)
                  let rest6 := rest5.dropWhile (· ≠ dqChar)
                  match rest6 with
                  | [] => none
                  | _ :: rest7 => some (String.mk kcs, String.mk vcs, rest7)
                else none
            else none
    else none

/-- `re.findall` driver: try a match at each position, left to right,
resuming after each successful match (fuel `length + 1` suffices since
every step consumes at least one character). -/
def findPairsAux : Nat → List Char → List (String × String)
  | 0, _ => []
  | _ + 1, [] => []
  | fuel + 1, c :: rest =>
    match matchPairAt (c :: rest) with
    | some (k, v, rem) => (k, v) :: findPairsAux fuel rem
    | none => findPairsAux fuel rest

def findPairs (s : String) : List (String × String) :=
  findPairsAux (s.data.length + 1) s.data

/-- `_extract_dynamic_imports(content)`. -/
def extractDynamicImports (content : String) : Dict String :=
  let dictLines := collectDictLines (pySplitLines content)
  if dictLines.isEmpty then []
  else
    let dictContent := joinNl dictLines
    let di := (findPairs dictContent).foldl (fun acc p => dinsert p.1 p.2 acc) []
    if containsSub moduleSentinelQuoted dictContent then
      dinsert "__module__" "__module__" di
    else di

/-! ## `ComponentIndexBuilder._extract_component_info` -/

/-- The empty-but-valid info record the extractor starts from (and
returns whenever the file is absent or nothing is found). -/
def defaultInfo : ComponentInfo :=
  { description := "", inputs := [], outputs := [], dependencies := [], tags := [] }

/-- The docstring loop of `_extract_component_info`: per line, (1) a
`class <name>` line sets `in_class` and continues; (2) while
`in_class and not in_docstring`, a triple-quote line either closes a
single-line docstring at once or enters `in_docstring`; (3) while
`in_docstring`, a closing triple-quote line joins the collected raw
lines, otherwise the raw line is collected.  Falling off the end leaves
the description empty. -/
def docScan (componentName : String) : List String → Bool → Bool → List String → String
  | [], _, _, _ => ""
  | line :: rest, inClass, inDoc, acc =>
    let stripped := pyStrip line
    if pyStartsWith stripped ("class " ++ componentName) then
      docScan componentName rest true inDoc acc
    else if inClass && !inDoc then
      if pyStartsWith stripped tripleDq || pyStartsWith stripped tripleSq then
        if !(pyEndsWith stripped tripleDq || pyEndsWith stripped tripleSq) then
          docScan componentName rest inClass true acc
        else
          pyStrip (pyStripChars [sqChar] (pyStripChars [dqChar] stripped))
      else docScan componentName rest inClass inDoc acc
    else if inDoc then
      if pyEndsWith stripped tripleDq || pyEndsWith stripped tripleSq then
        pyStrip (joinNl acc)
      else docScan componentName rest inClass inDoc (acc ++ [line])
    else docScan componentName rest inClass inDoc acc

/-- The fixed exclusion list used for the dependency signal. -/
def depExclusions : List String := ["typing", "os", "sys", "json", "pathlib"]

/-- One `import`-line step of the dependency extraction.  Lines holding
the substring `"import "` take the first branch (so `from X import Y`
records `Y`, its first dotted component); only `import`-less `from `
lines reach the second. -/
def depStep (deps : List String) (line : String) : List String :=
  if containsSub "import " line then
    match pySplitWs ((pySplitSub "import" line).getD 1 "") with
    | [] => deps
    | p0 :: _ =>
      let pkg := (pySplitSub "." p0).headD ""
      if !depExclusions.contains pkg && !deps.contains pkg then deps ++ [pkg] else deps
  else if containsSub "from " line then
    match pySplitSub "import" ((pySplitSub "from" line).getD 1 "") with
    | [] => deps
    | p0 :: _ =>
      let pkg := (pySplitSub "." (pyStrip p0)).headD ""
      if !depExclusions.contains pkg && !deps.contains pkg then deps ++ [pkg] else deps
  else deps

/-- `_extract_component_info(component_file, component_name)`;
`content? = none` models a missing file. -/
def extractComponentInfo (content? : Option String) (componentName : String) : ComponentInfo :=
  match content? with
  | none => defaultInfo
  | some content =>
    let lines := pySplitLines content
    let desc := docScan componentName lines false false []
    let importLines := lines.filter fun line =>
      pyStartsWith (pyStrip line) "import " || pyStartsWith (pyStrip line) "from "
    let deps := importLines.foldl depStep []
    { defaultInfo with description := desc, dependencies := deps }

/-! ## `ComponentIndexBuilder._get_category_from_module` -/

/-- The `category_map` dict literal, as the source lists it (duplicate
keys `google` and `azure` included, in source order). -/
def categoryMapEntries : List (String × String) :=
  [ ("anthropic", "models"), ("openai", "models"), ("mistral", "models"),
    ("google", "models"), ("azure", "models"), ("vertexai", "models"),
    ("cohere", "models"), ("huggingface", "models"), ("nvidia", "models"),
    ("ollama", "models"), ("groq", "models"), ("perplexity", "models"),
    ("deepseek", "models"), ("xai", "models"), ("novita", "models"),
    ("sambanova", "models"), ("aiml", "models"),
    ("faiss", "vectorstores"), ("pinecone", "vectorstores"),
    ("weaviate", "vectorstores"), ("qdrant", "vectorstores"),
    ("chroma", "vectorstores"), ("pgvector", "vectorstores"),
    ("milvus", "vectorstores"), ("vectara", "vectorstores"),
    ("supabase", "vectorstores"), ("upstash", "vectorstores"),
    ("redis", "vectorstores"),
    ("notion", "datasources"), ("confluence", "datasources"),
    ("wikipedia", "datasources"), ("arxiv", "datasources"),
    ("youtube", "datasources"), ("github", "datasources"),
    ("duckduckgo", "search"), ("bing", "search"), ("google", "search"),
    ("serpapi", "search"), ("tavily", "search"), ("exa", "search"),
    ("searchapi", "search"),
    ("tools", "tools"), ("helpers", "tools"), ("processing", "tools"),
    ("chains", "tools"), ("logic", "tools"), ("crewai", "tools"),
    ("documentloaders", "document_processing"),
    ("textsplitters", "document_processing"),
    ("unstructured", "document_processing"), ("docling", "document_processing"),
    ("embeddings", "embeddings"),
    ("aws", "cloud"), ("amazon", "cloud"), ("gcp", "cloud"), ("azure", "cloud"),
    ("custom_component", "custom"), ("composio", "integration"),
    ("homeassistant", "iot") ]

/-- The dict value of the literal: a Python dict literal evaluates its
entries in order, so a repeated key keeps its first position but the
last value wins — exactly `dinsert`'s behaviour. -/
def categoryMap : Dict String :=
  categoryMapEntries.foldl (fun acc p => dinsert p.1 p.2 acc) []

/-- `_get_category_from_module`: `category_map.get(module_name.lower(), "other")`. -/
def getCategoryFromModule (moduleName : String) : String :=
  (dget (pyLower moduleName) categoryMap).getD "other"

/-! ## `ComponentIndexBuilder` scan / validate -/

/-- The `categories[cat] = []`-then-`append` pattern shared by
`_add_component_to_index` and `_build_selective_index`. -/
def catBucketAppend (cat key : String) (cats : Dict (List String)) : Dict (List String) :=
  match dget cat cats with
  | none => dinsert cat [key] cats
  | some l => dinsert cat (l ++ [key]) cats

/-- `_add_component_to_index(module_name, component_name, file_path)`. -/
def addComponentToIndex (componentsPath : String) (mdl : ModuleDirEntry)
    (componentName filePath : String) (idx : Catalog) : Catalog :=
  let key := mdl.name ++ "." ++ componentName
  let info := extractComponentInfo (dget filePath mdl.files) componentName
  let cat := getCategoryFromModule mdl.name
  { idx with
    components := dinsert key
      { module := mdl.name, name := componentName, file_path := filePath,
        full_path := componentsPath ++ "/" ++ mdl.name ++ "/" ++ filePath ++ ".py",
        category := cat, info := info } idx.components,
    categories := catBucketAppend cat key idx.categories }

/-- `_add_module_to_index(module_name, dynamic_imports)`. -/
def addModuleToIndex (mdl : ModuleDirEntry) (di : Dict String) (idx : Catalog) : Catalog :=
  { idx with
    modules := dinsert mdl.name
      { name := mdl.name, category := getCategoryFromModule mdl.name,
        dynamic_imports := di,
        component_count := (di.filter (fun kv => kv.1 ≠ "__module__")).length }
      idx.modules }

/-- The per-module body of the scan loop: require `__init__.py`, extract
the dynamic-imports mapping, skip the module if it is empty, otherwise
add every non-sentinel component and then the module descriptor. -/
def processModule (componentsPath : String) (idx : Catalog) (mdl : ModuleDirEntry) : Catalog :=
  match mdl.initContent with
  | none => idx
  | some content =>
    let di := extractDynamicImports content
    if di.isEmpty then idx
    else
      let idx2 := di.foldl
        (fun acc kv =>
          if kv.1 ≠ "__module__" then addComponentToIndex componentsPath mdl kv.1 kv.2 acc
          else acc) idx
      addModuleToIndex mdl di idx2

/-- Stable insertion into a by-name sorted list (`sorted` is a stable
ascending sort; `Path` ordering under one parent is the lexicographic
order of the names). -/
def insertSortedEntry (d : ModuleDirEntry) : List ModuleDirEntry → List ModuleDirEntry
  | [] => [d]
  | e :: es => if strLe d.name e.name then d :: e :: es else e :: insertSortedEntry d es

def sortEntries (l : List ModuleDirEntry) : List ModuleDirEntry :=
  l.foldr insertSortedEntry []

/-- `scan_components()`: filter the `iterdir()` listing down to
non-hidden, non-dunder directories, process them in sorted order, then
stamp the totals and `generated_at` (the source stores `str(Path.cwd())`
there). -/
def scanComponents (componentsPath : String) (fs : FileSys) (cwd : String) : Catalog :=
  let moduleDirs := fs.entries.filter fun d =>
    d.isDir && !pyStartsWith d.name "__" && !pyStartsWith d.name "."
  let idx := (sortEntries moduleDirs).foldl (processModule componentsPath) initIndex
  { idx with
    metadata := { idx.metadata with
      total_components := idx.components.length,
      total_modules := idx.modules.length,
      generated_at := some cwd } }

/-- `validate_index()`: the four required top-level keys are fields of
the typed `Catalog`, so that membership test always passes here; the
remaining check is that every component references a known module. -/
def validateIndex (c : Catalog) : Bool :=
  c.components.all fun kv => (dget kv.2.module c.modules).isSome

/-! ## `save_index` / JSON reload

`save_index` writes `json.dump(self.index, f, indent=2, sort_keys=True)`
and the loader reads it back with `json.load`.  On the string-keyed,
JSON-safe values a catalog holds, that composition returns the same
Python value with every object's entries re-ordered by sorted key
(`json.load` preserves document order, which `sort_keys=True` made the
sorted key order; all scalars round-trip exactly).  In the typed model
only the open-keyed `Dict` fields can observe that re-ordering. -/

/-- Stable insertion sort of dict entries by key (the `sort_keys=True`
order). -/
def insertPairSorted {α : Type} (p : String × α) : Dict α → Dict α
  | [] => [p]
  | q :: qs => if strLe p.1 q.1 then p :: q :: qs else q :: insertPairSorted p qs

def sortPairs {α : Type} (l : Dict α) : Dict α :=
  l.foldr insertPairSorted []

/-- What a saved-then-reloaded catalog looks like: the same catalog with
every mapping (including each module's `dynamic_imports`) in sorted key
order. -/
def saveLoad (c : Catalog) : Catalog :=
  { metadata := c.metadata,
    components := sortPairs c.components,
    modules := sortPairs (c.modules.map fun kv =>
      (kv.1, { kv.2 with dynamic_imports := sortPairs kv.2.dynamic_imports })),
    categories := sortPairs c.categories }

/-- Python `==` on dicts: same key set, equal value at every key
(order-insensitive).  Faithful for genuine dicts, whose keys are unique. -/
def dictPyEq {α : Type} (eqv : α → α → Bool) (l1 l2 : Dict α) : Bool :=
  (l1.all fun kv =>
    match dget kv.1 l2 with
    | some v => eqv kv.2 v
    | none => false) &&
  (l2.all fun kv => (dget kv.1 l1).isSome)

/-- Python `==` on module descriptor dicts (`dynamic_imports` compared
as a dict). -/
def modulePyEq (m1 m2 : ModuleDescriptor) : Bool :=
  m1.name == m2.name && m1.category == m2.category &&
  m1.component_count == m2.component_count &&
  dictPyEq (· == ·) m1.dynamic_imports m2.dynamic_imports

/-- Python `==` on whole catalog dicts, field for field, nested mappings
compared as dicts. -/
def catalogPyEq (c1 c2 : Catalog) : Bool :=
  c1.metadata == c2.metadata &&
  dictPyEq (· == ·) c1.components c2.components &&
  dictPyEq modulePyEq c1.modules c2.modules &&
  dictPyEq (· == ·) c1.categories c2.categories

/-- A value that is a real Python dict tree: every mapping has unique
keys (guaranteed by construction for every dict the program builds). -/
def Catalog.WF (c : Catalog) : Prop :=
  (dkeys c.components).Nodup ∧ (dkeys c.modules).Nodup ∧
  (dkeys c.categories).Nodup ∧
  ∀ kv ∈ c.modules, (dkeys kv.2.dynamic_imports).Nodup

instance (c : Catalog) : Decidable c.WF := by
  unfold Catalog.WF; infer_instance

/-! ## `ComponentIndexLoader` -/

/-- The loader state after `__init__`: resolved paths (tracked as
present/absent — a `None` path is all the loader ever tests before the
filesystem answers), the memoized catalog, and the environment-derived
mode flags. -/
structure LoaderSt where
  indexPathSet : Bool
  cachePathSet : Bool
  indexData : Option Catalog
  developmentMode : Bool
  selectiveModules : List String
deriving Repr, DecidableEq

/-- The filesystem as the loader sees it: the two well-known files
(`none` = absent, `some none` = present but unreadable/corrupt,
`some (some c)` = loads as `c`), the components directory (with the
`cwd` and path string the scan consumes), and whether writing the cache
would raise. -/
structure World where
  builtinFile : Option (Option Catalog)
  cacheFile : Option (Option Catalog)
  componentsFs : Option FileSys
  componentsPathStr : String
  cwd : String
  writeFails : Bool
deriving Repr, DecidableEq

/-- `_check_environment_variables`, `WFX_DEV` half: returns
`(development_mode, selective_modules)`.  The Python `set(...)` is
modelled as first-occurrence deduplication (set iteration order is not
otherwise observed). -/
def pySetOfList (l : List String) : List String :=
  l.foldl (fun acc x => if acc.contains x then acc else acc ++ [x]) []

def parseDevEnv (wfxDev : String) : Bool × List String :=
  if wfxDev ≠ "" then
    if (["1", "true", "True", "TRUE"] : List String).contains wfxDev then (true, [])
    else
      let modules := ((pySplitSub "," wfxDev).map pyStrip).filter (· ≠ "")
      (true, pySetOfList (modules.map pyLower))
  else (false, [])

/-- `_try_load_builtin_index`: `some c` models the `True` return with
`self.index_data = c` assigned; `none` the `False` return (missing
path, missing file, or a caught read/parse error). -/
def tryLoadBuiltinIndex (s : LoaderSt) (w : World) : Option Catalog :=
  if s.indexPathSet then
    match w.builtinFile with
    | some (some c) => some c
    | _ => none
  else none

/-- `_try_load_cached_index`. -/
def tryLoadCachedIndex (s : LoaderSt) (w : World) : Option Catalog :=
  if s.cachePathSet then
    match w.cacheFile with
    | some (some c) => some c
    | _ => none
  else none

/-- `_build_and_cache_index`: requires an index path and an existing
components directory, scans, validates, saves to the cache path when one
is configured (a failing write raises inside the `try`, making the whole
tier fail), and reports the built catalog; the second component is the
world after the cache write. -/
def buildAndCacheIndex (s : LoaderSt) (w : World) : Option Catalog × World :=
  if s.indexPathSet then
    match w.componentsFs with
    | none => (none, w)
    | some fs =>
      let c := scanComponents w.componentsPathStr fs w.cwd
      if validateIndex c then
        if s.cachePathSet then
          if w.writeFails then (none, w)
          else (some c, { w with cacheFile := some (some (saveLoad c)) })
        else (some c, w)
      else (none, w)
  else (none, w)

/-- `_load_production_mode`: the three tiers strictly in order; only a
successful tier assigns `self.index_data`; exhaustion raises
(`RuntimeError`, modelled as `Except.error ()`). -/
def loadProductionMode (s : LoaderSt) (w : World) :
    Except Unit Catalog × LoaderSt × World :=
  match tryLoadBuiltinIndex s w with
  | some c => (.ok c, { s with indexData := some c }, w)
  | none =>
    match tryLoadCachedIndex s w with
    | some c => (.ok c, { s with indexData := some c }, w)
    | none =>
      match buildAndCacheIndex s w with
      | (some c, w2) => (.ok c, { s with indexData := some c }, w2)
      | (none, w2) => (.error (), s, w2)

/-- `_build_full_index`: scan and validate, raising on a missing path,
missing components directory, or failed validation.  It does **not**
assign `self.index_data`. -/
def buildFullIndex (s : LoaderSt) (w : World) : Except Unit Catalog :=
  if s.indexPathSet then
    match w.componentsFs with
    | none => .error ()
    | some fs =>
      let c := scanComponents w.componentsPathStr fs w.cwd
      if validateIndex c then .ok c else .error ()
  else .error ()

/-- `_build_selective_index` filter body (the loop over the full index
once the `try` is entered), faithful to the three passes of the source. -/
def filterIndex (sel : List String) (full : Catalog) : Catalog :=
  let md := { full.metadata with
    selective_modules := some sel, total_components := 0, total_modules := 0 }
  let ms := full.modules.foldl
    (fun (acc : Dict ModuleDescriptor × Nat) kv =>
      if sel.contains kv.2.category then (dinsert kv.1 kv.2 acc.1, acc.2 + 1) else acc)
    ([], 0)
  let cs := full.components.foldl
    (fun (acc : Dict ComponentDescriptor × Dict (List String) × Nat) kv =>
      if sel.contains kv.2.category then
        (dinsert kv.1 kv.2 acc.1, catBucketAppend kv.2.category kv.1 acc.2.1, acc.2.2 + 1)
      else acc)
    ([], [], 0)
  { metadata := { md with total_components := cs.2.2, total_modules := ms.2 },
    components := cs.1, modules := ms.1, categories := cs.2.1 }

/-- `_build_selective_index`: everything, the initial `_build_full_index`
call included, runs inside one `try`; any exception falls back to a
fresh `self._build_full_index()` call (which, against the same world,
re-raises if the scan itself was the failure).  `filterFails` is the
oracle for an unexpected exception inside the filter passes. -/
def buildSelectiveIndex (s : LoaderSt) (w : World) (filterFails : Bool) :
    Except Unit Catalog :=
  match buildFullIndex s w with
  | .error _ => buildFullIndex s w
  | .ok full =>
    if s.selectiveModules.isEmpty then .ok full
    else if filterFails then buildFullIndex s w
    else .ok (filterIndex s.selectiveModules full)

/-- `_load_development_mode`.  Neither branch assigns `self.index_data`. -/
def loadDevelopmentMode (s : LoaderSt) (w : World) (filterFails : Bool) :
    Except Unit Catalog :=
  if !s.selectiveModules.isEmpty then buildSelectiveIndex s w filterFails
  else buildFullIndex s w

/-- `load_index()`. -/
def loadIndex (s : LoaderSt) (w : World) (filterFails : Bool) :
    Except Unit Catalog × LoaderSt × World :=
  if s.developmentMode then (loadDevelopmentMode s w filterFails, s, w)
  else loadProductionMode s w

/-! ## Query operations

Each follows the same shape: `if not self.index_data: self.load_index()`
(the return value is discarded; an exception propagates), then
`if not self.index_data: return []`, then read the memoized catalog.
A loaded catalog is a non-empty dict, so Python truthiness coincides
with the `Option` being `some`. -/

def getAvailableModules (s : LoaderSt) (w : World) (filterFails : Bool) :
    Except Unit (List String) × LoaderSt × World :=
  match s.indexData with
  | some c => (.ok (dkeys c.modules), s, w)
  | none =>
    match loadIndex s w filterFails with
    | (.error e, s2, w2) => (.error e, s2, w2)
    | (.ok _, s2, w2) =>
      match s2.indexData with
      | none => (.ok [], s2, w2)
      | some c => (.ok (dkeys c.modules), s2, w2)

def getAvailableCategories (s : LoaderSt) (w : World) (filterFails : Bool) :
    Except Unit (List String) × LoaderSt × World :=
  match s.indexData with
  | some c => (.ok (dkeys c.categories), s, w)
  | none =>
    match loadIndex s w filterFails with
    | (.error e, s2, w2) => (.error e, s2, w2)
    | (.ok _, s2, w2) =>
      match s2.indexData with
      | none => (.ok [], s2, w2)
      | some c => (.ok (dkeys c.categories), s2, w2)

/-- Component names of one module: the non-sentinel keys of its
`dynamic_imports` (an unknown module yields `[]`). -/
def componentsInModuleOf (c : Catalog) (moduleName : String) : List String :=
  match dget moduleName c.modules with
  | none => []
  | some mi => (dkeys mi.dynamic_imports).filter (· ≠ "__module__")

def getComponentsInModule (moduleName : String) (s : LoaderSt) (w : World)
    (filterFails : Bool) : Except Unit (List String) × LoaderSt × World :=
  match s.indexData with
  | some c => (.ok (componentsInModuleOf c moduleName), s, w)
  | none =>
    match loadIndex s w filterFails with
    | (.error e, s2, w2) => (.error e, s2, w2)
    | (.ok _, s2, w2) =>
      match s2.indexData with
      | none => (.ok [], s2, w2)
      | some c => (.ok (componentsInModuleOf c moduleName), s2, w2)

def getComponentsInCategory (category : String) (s : LoaderSt) (w : World)
    (filterFails : Bool) : Except Unit (List String) × LoaderSt × World :=
  match s.indexData with
  | some c => (.ok ((dget category c.categories).getD []), s, w)
  | none =>
    match loadIndex s w filterFails with
    | (.error e, s2, w2) => (.error e, s2, w2)
    | (.ok _, s2, w2) =>
      match s2.indexData with
      | none => (.ok [], s2, w2)
      | some c => (.ok ((dget category c.categories).getD []), s2, w2)

deriving instance DecidableEq for Except

/-! ## Association-list (dict) lemmas -/

theorem dget_dinsert_self {α : Type} (k : String) (v : α) (l : Dict α) :
    dget k (dinsert k v l) = some v := by
  induction l with
  | nil => simp [dinsert, dget]
  | cons hd tl ih =>
    obtain ⟨k', v'⟩ := hd
    by_cases h : k' = k
    · simp [dinsert, dget, h]
    · simp [dinsert, dget, h, ih]

theorem dget_dinsert_of_ne {α : Type} {k k' : String} (v : α) (l : Dict α)
    (h : k' ≠ k) : dget k (dinsert k' v l) = dget k l := by
  induction l with
  | nil => simp [dinsert, dget, h]
  | cons hd tl ih =>
    obtain ⟨k2, v2⟩ := hd
    by_cases h2 : k2 = k'
    · subst h2; simp [dinsert, dget, h]
    · simp only [dinsert, if_neg h2]
      by_cases h3 : k2 = k
      · simp [dget, h3]
      · simp [dget, h3, ih]

theorem mem_dinsert {α : Type} {x : String × α} {k : String} {v : α} {l : Dict α}
    (h : x ∈ dinsert k v l) : x = (k, v) ∨ x ∈ l := by
  induction l with
  | nil =>
    simp only [dinsert, List.mem_singleton] at h
    exact Or.inl h
  | cons hd tl ih =>
    obtain ⟨k', v'⟩ := hd
    by_cases h2 : k' = k
    · simp only [dinsert, if_pos h2] at h
      rcases List.mem_cons.mp h with h3 | h3
      · exact Or.inl h3
      · exact Or.inr (List.mem_cons_of_mem _ h3)
    · simp only [dinsert, if_neg h2] at h
      rcases List.mem_cons.mp h with h3 | h3
      · exact Or.inr (by rw [h3]; exact List.mem_cons_self _ _)
      · rcases ih h3 with h4 | h4
        · exact Or.inl h4
        · exact Or.inr (List.mem_cons_of_mem _ h4)

theorem dinsert_of_not_mem {α : Type} {k : String} (v : α) {l : Dict α}
    (h : k ∉ dkeys l) : dinsert k v l = l ++ [(k, v)] := by
  induction l with
  | nil => simp [dinsert]
  | cons hd tl ih =>
    obtain ⟨k', v'⟩ := hd
    have h1 : k' ≠ k := by
      intro he
      exact h (by simp [dkeys, he])
    have h2 : k ∉ dkeys tl := by
      intro hm
      apply h
      simp only [dkeys, List.map_cons, List.mem_cons]
      exact Or.inr (by simpa [dkeys] using hm)
    simp only [dinsert, if_neg h1, List.cons_append]
    rw [ih h2]

theorem dkeys_dinsert_of_mem {α : Type} {k : String} (v : α) {l : Dict α}
    (h : k ∈ dkeys l) : dkeys (dinsert k v l) = dkeys l := by
  induction l with
  | nil => simp [dkeys] at h
  | cons hd tl ih =>
    obtain ⟨k', v'⟩ := hd
    by_cases h2 : k' = k
    · simp [dinsert, dkeys, h2]
    · have h3 : k ∈ dkeys tl := by
        rcases List.mem_cons.mp (by simpa [dkeys] using h : k ∈ k' :: dkeys tl) with h4 | h4
        · exact absurd h4.symm h2
        · exact h4
      simp only [dinsert, if_neg h2, dkeys, List.map_cons]
      have := ih h3
      simp only [dkeys] at this
      rw [this]

theorem nodup_dkeys_dinsert {α : Type} {k : String} (v : α) {l : Dict α}
    (h : (dkeys l).Nodup) : (dkeys (dinsert k v l)).Nodup := by
  by_cases hm : k ∈ dkeys l
  · rw [dkeys_dinsert_of_mem v hm]; exact h
  · rw [dinsert_of_not_mem v hm]
    have hk : dkeys (l ++ [(k, v)]) = dkeys l ++ [k] := by simp [dkeys]
    rw [hk]
    refine List.Nodup.append h (List.nodup_singleton k) ?_
    intro a ha hb
    rw [List.mem_singleton.mp hb] at ha
    exact hm ha

theorem dget_isSome_of_mem {α : Type} {k : String} {v : α} {l : Dict α}
    (h : (k, v) ∈ l) : (dget k l).isSome := by
  induction l with
  | nil => simp at h
  | cons hd tl ih =>
    obtain ⟨k', v'⟩ := hd
    rcases List.mem_cons.mp h with h2 | h2
    · cases h2; simp [dget]
    · by_cases h3 : k' = k
      · simp [dget, h3]
      · simp [dget, h3, ih h2]

theorem dget_eq_of_mem_nodup {α : Type} {k : String} {v : α} {l : Dict α}
    (hn : (dkeys l).Nodup) (h : (k, v) ∈ l) : dget k l = some v := by
  induction l with
  | nil => simp at h
  | cons hd tl ih =>
    obtain ⟨k', v'⟩ := hd
    simp only [dkeys, List.map_cons, List.nodup_cons] at hn
    rcases List.mem_cons.mp h with h2 | h2
    · cases h2; simp [dget]
    · have hne : k' ≠ k := by
        intro he
        exact hn.1 (he ▸ List.mem_map_of_mem Prod.fst h2)
      simp [dget, hne, ih (by simpa [dkeys] using hn.2) h2]

theorem dget_isSome_dinsert {α : Type} {m k : String} (v : α) {l : Dict α}
    (h : (dget m l).isSome) : (dget m (dinsert k v l)).isSome := by
  by_cases h2 : k = m
  · subst h2; simp [dget_dinsert_self]
  · rw [dget_dinsert_of_ne v l h2]; exact h

/-! ## C4 infrastructure: the component/module invariant of a scan -/

/-- The validator's core invariant, as a proposition. -/
def CatInv (c : Catalog) : Prop :=
  ∀ kv ∈ c.components, (dget kv.2.module c.modules).isSome = true

theorem addComponent_modules (p : String) (mdl : ModuleDirEntry) (n fp : String)
    (idx : Catalog) : (addComponentToIndex p mdl n fp idx).modules = idx.modules := rfl

/-- The inner fold of `processModule` adds only components belonging to
the module being processed, and leaves `modules` untouched. -/
theorem fold_addComponent_components (p : String) (mdl : ModuleDirEntry)
    (di : Dict String) :
    ∀ idx : Catalog, ∀ kv ∈ (di.foldl
      (fun acc kv =>
        if kv.1 ≠ "__module__" then addComponentToIndex p mdl kv.1 kv.2 acc
        else acc) idx).components,
      kv ∈ idx.components ∨ kv.2.module = mdl.name := by
  induction di with
  | nil => intro idx kv h; exact Or.inl h
  | cons hd tl ih =>
    intro idx kv h
    rw [List.foldl_cons] at h
    rcases ih _ kv h with h2 | h2
    · by_cases h3 : hd.1 ≠ "__module__"
      · simp only [if_pos h3, addComponentToIndex] at h2
        rcases mem_dinsert h2 with h4 | h4
        · subst h4; exact Or.inr rfl
        · exact Or.inl h4
      · simp only [if_neg h3] at h2
        exact Or.inl h2
    · exact Or.inr h2

theorem fold_addComponent_modules (p : String) (mdl : ModuleDirEntry)
    (di : Dict String) :
    ∀ idx : Catalog, (di.foldl
      (fun acc kv =>
        if kv.1 ≠ "__module__" then addComponentToIndex p mdl kv.1 kv.2 acc
        else acc) idx).modules = idx.modules := by
  induction di with
  | nil => intro idx; rfl
  | cons hd tl ih =>
    intro idx
    rw [List.foldl_cons, ih]
    by_cases h : hd.1 ≠ "__module__" <;> simp [h, addComponent_modules]

theorem processModule_inv (p : String) (idx : Catalog) (mdl : ModuleDirEntry)
    (h : CatInv idx) : CatInv (processModule p idx mdl) := by
  unfold processModule
  cases hinit : mdl.initContent with
  | none => exact h
  | some content =>
    by_cases hdi : (extractDynamicImports content).isEmpty
    · simp only [hdi, if_true]; exact h
    · simp only [hdi, if_false]
      intro kv hkv
      simp only [addModuleToIndex] at hkv ⊢
      rcases fold_addComponent_components p mdl (extractDynamicImports content) idx kv hkv
        with h2 | h2
      · have := h kv h2
        rw [fold_addComponent_modules]
        exact dget_isSome_dinsert _ this
      · rw [h2, fold_addComponent_modules]
        simp [dget_dinsert_self]

theorem foldl_processModule_inv (p : String) (l : List ModuleDirEntry) :
    ∀ idx : Catalog, CatInv idx → CatInv (l.foldl (processModule p) idx) := by
  induction l with
  | nil => intro idx h; exact h
  | cons hd tl ih =>
    intro idx h
    rw [List.foldl_cons]
    exact ih _ (processModule_inv p idx hd h)

/-- Every completed scan passes validation. -/
theorem scan_validate (p : String) (fs : FileSys) (cwd : String) :
    validateIndex (scanComponents p fs cwd) = true := by
  unfold validateIndex scanComponents
  rw [List.all_eq_true]
  intro kv hkv
  have hinv := foldl_processModule_inv p
    (sortEntries (fs.entries.filter fun d =>
      d.isDir && !pyStartsWith d.name "__" && !pyStartsWith d.name "."))
    initIndex (by intro kv h; simp [initIndex] at h)
  exact hinv kv hkv

/-! ## Key uniqueness of every dict a scan builds -/

theorem addModule_components (mdl : ModuleDirEntry) (di : Dict String) (idx : Catalog) :
    (addModuleToIndex mdl di idx).components = idx.components := rfl

theorem fold_addComponent_components_nodup (p : String) (mdl : ModuleDirEntry)
    (di : Dict String) :
    ∀ idx : Catalog, (dkeys idx.components).Nodup →
      (dkeys ((di.foldl
        (fun acc kv =>
          if kv.1 ≠ "__module__" then addComponentToIndex p mdl kv.1 kv.2 acc
          else acc) idx)).components).Nodup := by
  induction di with
  | nil => intro idx h; exact h
  | cons hd tl ih =>
    intro idx h
    rw [List.foldl_cons]
    apply ih
    by_cases h2 : hd.1 ≠ "__module__"
    · simpa [h2, addComponentToIndex] using nodup_dkeys_dinsert _ h
    · simpa [h2] using h

theorem processModule_nodup (p : String) (idx : Catalog) (mdl : ModuleDirEntry)
    (hc : (dkeys idx.components).Nodup) (hm : (dkeys idx.modules).Nodup) :
    (dkeys (processModule p idx mdl).components).Nodup ∧
    (dkeys (processModule p idx mdl).modules).Nodup := by
  unfold processModule
  cases mdl.initContent with
  | none => exact ⟨hc, hm⟩
  | some content =>
    dsimp only
    by_cases hdi : (extractDynamicImports content).isEmpty
    · rw [if_pos hdi]; exact ⟨hc, hm⟩
    · rw [if_neg hdi]
      constructor
      · rw [addModule_components]
        exact fold_addComponent_components_nodup p mdl _ idx hc
      · simp only [addModuleToIndex]
        rw [fold_addComponent_modules]
        exact nodup_dkeys_dinsert _ hm

theorem foldl_processModule_nodup (p : String) (l : List ModuleDirEntry) :
    ∀ idx : Catalog, (dkeys idx.components).Nodup → (dkeys idx.modules).Nodup →
      (dkeys ((l.foldl (processModule p) idx)).components).Nodup ∧
      (dkeys ((l.foldl (processModule p) idx)).modules).Nodup := by
  induction l with
  | nil => intro idx hc hm; exact ⟨hc, hm⟩
  | cons hd tl ih =>
    intro idx hc hm
    rw [List.foldl_cons]
    obtain ⟨hc2, hm2⟩ := processModule_nodup p idx hd hc hm
    exact ih _ hc2 hm2

theorem scan_nodup (p : String) (fs : FileSys) (cwd : String) :
    (dkeys (scanComponents p fs cwd).components).Nodup ∧
    (dkeys (scanComponents p fs cwd).modules).Nodup := by
  unfold scanComponents
  exact foldl_processModule_nodup p _ initIndex (by simp [initIndex, dkeys])
    (by simp [initIndex, dkeys])

/-! ## The lexicographic sort of the module directories -/

theorem charListLe_total : ∀ as bs : List Char,
    charListLe as bs = true ∨ charListLe bs as = true := by
  intro as
  induction as with
  | nil => intro bs; exact Or.inl rfl
  | cons a as ih =>
    intro bs
    cases bs with
    | nil => exact Or.inr rfl
    | cons b bs =>
      by_cases h1 : a.toNat < b.toNat
      · left; simp [charListLe, h1]
      · by_cases h2 : b.toNat < a.toNat
        · right; simp [charListLe, h2]
        · rcases ih bs with h3 | h3
          · left; simp [charListLe, h1, h2, h3]
          · right; simp [charListLe, h1, h2, h3]

theorem charListLe_trans : ∀ as bs cs : List Char,
    charListLe as bs = true → charListLe bs cs = true → charListLe as cs = true := by
  intro as
  induction as with
  | nil => intro bs cs _ _; rfl
  | cons a as ih =>
    intro bs cs h1 h2
    cases bs with
    | nil => simp [charListLe] at h1
    | cons b bs =>
      cases cs with
      | nil => simp [charListLe] at h2
      | cons c cs =>
        simp only [charListLe] at h1 h2 ⊢
        by_cases hab : a.toNat < b.toNat
        · by_cases hbc : b.toNat < c.toNat
          · simp [Nat.lt_trans hab hbc]
          · by_cases hcb : c.toNat < b.toNat
            · simp [hbc, hcb] at h2
            · have hac : a.toNat < c.toNat := by omega
              simp [hac]
        · by_cases hba : b.toNat < a.toNat
          · simp [hab, hba] at h1
          · by_cases hbc : b.toNat < c.toNat
            · have hac : a.toNat < c.toNat := by omega
              simp [hac]
            · by_cases hcb : c.toNat < b.toNat
              · simp [hbc, hcb] at h2
              · have hac : ¬ a.toNat < c.toNat := by omega
                have hca : ¬ c.toNat < a.toNat := by omega
                simp only [hab, hba, if_false] at h1
                simp only [hbc, hcb, if_false] at h2
                simp [hac, hca, ih bs cs h1 h2]

theorem strLe_total (a b : String) : strLe a b = true ∨ strLe b a = true :=
  charListLe_total a.data b.data

theorem strLe_trans {a b c : String} (h1 : strLe a b = true) (h2 : strLe b c = true) :
    strLe a c = true :=
  charListLe_trans a.data b.data c.data h1 h2

/-- Membership through `insertSortedEntry`. -/
theorem mem_insertSortedEntry {d x : ModuleDirEntry} :
    ∀ l : List ModuleDirEntry, x ∈ insertSortedEntry d l → x = d ∨ x ∈ l := by
  intro l
  induction l with
  | nil =>
    intro h
    simp only [insertSortedEntry, List.mem_singleton] at h
    exact Or.inl h
  | cons e es ih =>
    intro h
    by_cases h2 : strLe d.name e.name = true
    · simp only [insertSortedEntry, if_pos h2] at h
      rcases List.mem_cons.mp h with h3 | h3
      · exact Or.inl h3
      · exact Or.inr h3
    · simp only [insertSortedEntry, if_neg h2] at h
      rcases List.mem_cons.mp h with h3 | h3
      · exact Or.inr (by rw [h3]; exact List.mem_cons_self _ _)
      · rcases ih h3 with h4 | h4
        · exact Or.inl h4
        · exact Or.inr (List.mem_cons_of_mem _ h4)

theorem pairwise_insertSortedEntry (d : ModuleDirEntry) :
    ∀ l : List ModuleDirEntry,
      List.Pairwise (fun a b => strLe a.name b.name = true) l →
      List.Pairwise (fun a b => strLe a.name b.name = true) (insertSortedEntry d l) := by
  intro l
  induction l with
  | nil => intro _; simp [insertSortedEntry]
  | cons e es ih =>
    intro h
    rw [List.pairwise_cons] at h
    by_cases h2 : strLe d.name e.name = true
    · simp only [insertSortedEntry, if_pos h2]
      rw [List.pairwise_cons]
      constructor
      · intro x hx
        rcases List.mem_cons.mp hx with h3 | h3
        · rw [h3]; exact h2
        · exact strLe_trans h2 (h.1 x h3)
      · rw [List.pairwise_cons]
        exact h
    · simp only [insertSortedEntry, if_neg h2]
      rw [List.pairwise_cons]
      constructor
      · intro x hx
        rcases mem_insertSortedEntry _ hx with h3 | h3
        · rw [h3]
          rcases strLe_total d.name e.name with h4 | h4
          · exact absurd h4 h2
          · exact h4
        · exact h.1 x h3
      · exact ih h.2

theorem pairwise_sortEntries (l : List ModuleDirEntry) :
    List.Pairwise (fun a b => strLe a.name b.name = true) (sortEntries l) := by
  unfold sortEntries
  induction l with
  | nil => simp
  | cons hd tl ih =>
    rw [List.foldr_cons]
    exact pairwise_insertSortedEntry hd _ ih

/-- Through the scan fold, module keys stay sorted: each processed
directory's name is inserted at the end (or replaces in place), and the
directories arrive in ascending order. -/
theorem foldl_processModule_modules_sorted (p : String) :
    ∀ (l : List ModuleDirEntry) (idx : Catalog),
      List.Pairwise (fun a b => strLe a b = true) (dkeys idx.modules) →
      List.Pairwise (fun a b => strLe a.name b.name = true) l →
      (∀ k ∈ dkeys idx.modules, ∀ d ∈ l, strLe k d.name = true) →
      List.Pairwise (fun a b => strLe a b = true)
        (dkeys ((l.foldl (processModule p) idx)).modules) := by
  intro l
  induction l with
  | nil => intro idx hs _ _; exact hs
  | cons hd tl ih =>
    intro idx hs hl hcond
    rw [List.pairwise_cons] at hl
    rw [List.foldl_cons]
    have hmods : dkeys (processModule p idx hd).modules = dkeys idx.modules ∨
        dkeys (processModule p idx hd).modules = dkeys idx.modules ++ [hd.name] := by
      unfold processModule
      cases hd.initContent with
      | none => exact Or.inl rfl
      | some content =>
        dsimp only
        by_cases hdi : (extractDynamicImports content).isEmpty
        · rw [if_pos hdi]; exact Or.inl rfl
        · rw [if_neg hdi]
          simp only [addModuleToIndex]
          rw [fold_addComponent_modules]
          by_cases hmem : hd.name ∈ dkeys idx.modules
          · exact Or.inl (dkeys_dinsert_of_mem _ hmem)
          · right
            rw [dinsert_of_not_mem _ hmem]
            simp [dkeys]
    rcases hmods with hmods | hmods
    · exact ih _ (hmods ▸ hs) hl.2 (by rw [hmods]; intro k hk d hd2; exact hcond k hk d (List.mem_cons_of_mem _ hd2))
    · refine ih _ ?_ hl.2 ?_
      · rw [hmods]
        rw [List.pairwise_append]
        refine ⟨hs, List.pairwise_singleton _ _, ?_⟩
        intro a ha b hb
        rw [List.mem_singleton.mp hb]
        exact hcond a ha hd (List.mem_cons_self _ _)
      · rw [hmods]
        intro k hk d hd2
        rcases List.mem_append.mp hk with h3 | h3
        · exact hcond k h3 d (List.mem_cons_of_mem _ hd2)
        · rw [List.mem_singleton.mp h3]
          exact hl.1 d hd2

theorem scan_modules_sorted (p : String) (fs : FileSys) (cwd : String) :
    List.Pairwise (fun a b => strLe a b = true) (dkeys (scanComponents p fs cwd).modules) := by
  unfold scanComponents
  exact foldl_processModule_modules_sorted p _ initIndex
    (by simp [initIndex, dkeys]) (pairwise_sortEntries _)
    (by intro k hk; simp [initIndex, dkeys] at hk)

/-- C4: for every catalog produced by a completed scan of an existing
components root, `validate` returns true, `metadata.total_components`
equals the number of entries of the `components` mapping, and
`metadata.total_modules` equals the number of entries of the `modules`
mapping. -/
theorem claim_C4_scan_validates_and_counts (p : String) (fs : FileSys) (cwd : String) :
    validateIndex (scanComponents p fs cwd) = true ∧
    (scanComponents p fs cwd).metadata.total_components =
      (scanComponents p fs cwd).components.length ∧
    (scanComponents p fs cwd).metadata.total_modules =
      (scanComponents p fs cwd).modules.length := by
  refine ⟨scan_validate p fs cwd, ?_, ?_⟩ <;> simp [scanComponents]

/-- C8: two scans of the same unchanged components root agree on every
field except possibly `metadata.generated_at` (the only field fed by the
build location), and the module keys are produced in lexicographic
(code-point) order, so catalog contents are reproducible across runs. -/
theorem claim_C8_scan_deterministic_and_sorted (p : String) (fs : FileSys)
    (cwd1 cwd2 : String) :
    (scanComponents p fs cwd1).components = (scanComponents p fs cwd2).components ∧
    (scanComponents p fs cwd1).modules = (scanComponents p fs cwd2).modules ∧
    (scanComponents p fs cwd1).categories = (scanComponents p fs cwd2).categories ∧
    (scanComponents p fs cwd1).metadata.version =
      (scanComponents p fs cwd2).metadata.version ∧
    (scanComponents p fs cwd1).metadata.total_components =
      (scanComponents p fs cwd2).metadata.total_components ∧
    (scanComponents p fs cwd1).metadata.total_modules =
      (scanComponents p fs cwd2).metadata.total_modules ∧
    (scanComponents p fs cwd1).metadata.selective_modules =
      (scanComponents p fs cwd2).metadata.selective_modules ∧
    (scanComponents p fs cwd1).metadata.generated_at = some cwd1 ∧
    List.Pairwise (fun a b => strLe a b = true)
      (dkeys (scanComponents p fs cwd1).modules) := by
  refine ⟨rfl, rfl, rfl, rfl, rfl, rfl, rfl, rfl, scan_modules_sorted p fs cwd1⟩

/-! ## C7 infrastructure: key-sorting preserves Python dict equality -/

theorem perm_insertPairSorted {α : Type} (p : String × α) (l : Dict α) :
    (insertPairSorted p l).Perm (p :: l) := by
  induction l with
  | nil => exact List.Perm.refl _
  | cons q qs ih =>
    by_cases h : strLe p.1 q.1 = true
    · simp only [insertPairSorted, if_pos h]
      exact List.Perm.refl _
    · simp only [insertPairSorted, if_neg h]
      exact (List.Perm.cons q ih).trans (List.Perm.swap p q qs)

theorem perm_sortPairs {α : Type} (l : Dict α) : (sortPairs l).Perm l := by
  unfold sortPairs
  induction l with
  | nil => exact List.Perm.refl _
  | cons x xs ih =>
    rw [List.foldr_cons]
    exact (perm_insertPairSorted x _).trans (List.Perm.cons x ih)

/-- The key lemma: re-ordering a unique-keyed mapping by sorted key
(after mapping a value transformation `f` that is `eqv`-invisible)
leaves the dict equal in Python's sense. -/
theorem dictPyEq_sortPairs_map {α : Type} (eqv : α → α → Bool) (f : α → α) (l : Dict α)
    (hn : (dkeys l).Nodup)
    (hf : ∀ kv ∈ l, eqv (f kv.2) kv.2 = true) :
    dictPyEq eqv (sortPairs (l.map (fun kv => (kv.1, f kv.2)))) l = true := by
  unfold dictPyEq
  rw [Bool.and_eq_true, List.all_eq_true, List.all_eq_true]
  constructor
  · intro kv hkv
    have hmem : kv ∈ l.map (fun kv => (kv.1, f kv.2)) :=
      (perm_sortPairs _).mem_iff.mp hkv
    obtain ⟨kv0, hkv0, heq⟩ := List.mem_map.mp hmem
    have hk1 : kv.1 = kv0.1 := by rw [← heq]
    have hk2 : kv.2 = f kv0.2 := by rw [← heq]
    have hget : dget kv.1 l = some kv0.2 := by
      rw [hk1]
      exact dget_eq_of_mem_nodup hn (by simpa using hkv0)
    rw [hget, hk2]
    exact hf kv0 hkv0
  · intro kv hkv
    have hmem : (kv.1, f kv.2) ∈ sortPairs (l.map (fun kv => (kv.1, f kv.2))) :=
      (perm_sortPairs _).mem_iff.mpr
        (List.mem_map.mpr ⟨kv, hkv, rfl⟩)
    exact dget_isSome_of_mem hmem

/-- Specialisation: plain key-sorting of a unique-keyed mapping. -/
theorem dictPyEq_sortPairs {α : Type} (eqv : α → α → Bool) (l : Dict α)
    (hn : (dkeys l).Nodup) (hrefl : ∀ kv ∈ l, eqv kv.2 kv.2 = true) :
    dictPyEq eqv (sortPairs l) l = true := by
  have h := dictPyEq_sortPairs_map eqv id l hn (by simpa using hrefl)
  simpa using h

theorem saveLoad_pyEq (c : Catalog) (h : c.WF) : catalogPyEq (saveLoad c) c = true := by
  obtain ⟨h1, h2, h3, h4⟩ := h
  unfold catalogPyEq saveLoad
  simp only [Bool.and_eq_true]
  refine ⟨⟨⟨?_, ?_⟩, ?_⟩, ?_⟩
  · exact beq_self_eq_true _
  · exact dictPyEq_sortPairs _ c.components h1 (fun kv _ => beq_self_eq_true _)
  · refine dictPyEq_sortPairs_map modulePyEq
      (fun m => { m with dynamic_imports := sortPairs m.dynamic_imports })
      c.modules h2 ?_
    intro kv hkv
    unfold modulePyEq
    simp only [Bool.and_eq_true]
    refine ⟨⟨⟨beq_self_eq_true _, beq_self_eq_true _⟩, beq_self_eq_true _⟩, ?_⟩
    exact dictPyEq_sortPairs _ kv.2.dynamic_imports (h4 kv hkv)
      (fun kv2 _ => beq_self_eq_true _)
  · exact dictPyEq_sortPairs _ c.categories h3 (fun kv _ => beq_self_eq_true _)

/-- C7: saving a valid catalog and loading it back yields a catalog
equal to the original field for field in Python's sense (`==`), all
nested mappings included — the reload differs only by every mapping
being re-ordered into sorted key order. -/
theorem claim_C7_save_load_roundtrip (c : Catalog) (h : c.WF) :
    catalogPyEq (saveLoad c) c = true :=
  saveLoad_pyEq c h

/-- A concrete catalog (deliberately with unsorted keys) for the C7
witness. -/
def roundtripCat : Catalog :=
  { metadata := { version := "1.0", generated_at := some "/app",
                  total_components := 2, total_modules := 1,
                  selective_modules := none },
    components :=
      [ ("openai.Zeta", { module := "openai", name := "Zeta", file_path := "zeta",
                          full_path := "/c/openai/zeta.py", category := "models",
                          info := defaultInfo }),
        ("openai.Alpha", { module := "openai", name := "Alpha", file_path := "alpha",
                           full_path := "/c/openai/alpha.py", category := "models",
                           info := defaultInfo }) ],
    modules :=
      [ ("openai", { name := "openai", category := "models",
                     dynamic_imports := [("Zeta", "zeta"), ("Alpha", "alpha")],
                     component_count := 2 }) ],
    categories := [ ("models", ["openai.Zeta", "openai.Alpha"]) ] }

theorem claim_C7_witness :
    roundtripCat.WF ∧ catalogPyEq (saveLoad roundtripCat) roundtripCat = true :=
  ⟨by decide, claim_C7_save_load_roundtrip roundtripCat (by decide)⟩

/-! ## Concrete fixtures for the loader claims -/

/-- A minimal `openai/__init__.py` declaring one component. -/
def initOpenai : String :=
  "_dynamic_imports = \x7b\n    \"ChatOpenAI\": \"chat_model\",\n\x7d\n"

/-- The matching `openai/chat_model.py`. -/
def chatFile : String :=
  "import requests\n\nclass ChatOpenAI:\n    \"\"\"OpenAI chat model.\"\"\"\n    pass\n"

/-- A components root holding exactly the `openai` module. -/
def fsOpenai : FileSys :=
  { entries := [ { name := "openai", isDir := true, initContent := some initOpenai,
                   files := [("chat_model", chatFile)] } ] }

/-- The catalog the scan of `fsOpenai` produces. -/
def openaiCat : Catalog := scanComponents "/app/components" fsOpenai "/app"

/-- A loader configured by `WFX_DEV=1`: development mode, no allow-list. -/
def devS : LoaderSt :=
  { indexPathSet := true, cachePathSet := true, indexData := none,
    developmentMode := true, selectiveModules := [] }

/-- A production-configured loader (development mode off). -/
def prodS : LoaderSt :=
  { indexPathSet := true, cachePathSet := true, indexData := none,
    developmentMode := false, selectiveModules := [] }

/-- A world with no prebuilt files but a valid components root. -/
def wScan : World :=
  { builtinFile := none, cacheFile := none, componentsFs := some fsOpenai,
    componentsPathStr := "/app/components", cwd := "/app", writeFails := false }

/-- Two distinct catalogs standing for two builtin-file contents. -/
def catA : Catalog :=
  { metadata := { version := "1.0", generated_at := some "A",
                  total_components := 0, total_modules := 0, selective_modules := none },
    components := [], modules := [], categories := [] }

def catB : Catalog :=
  { metadata := { version := "1.0", generated_at := some "B",
                  total_components := 0, total_modules := 0, selective_modules := none },
    components := [], modules := [], categories := [] }

/-- A world whose builtin index file is present and parses as `catA`. -/
def wBuiltinA : World :=
  { builtinFile := some (some catA), cacheFile := none, componentsFs := none,
    componentsPathStr := "/c", cwd := "/", writeFails := false }

def wBuiltinB : World := { wBuiltinA with builtinFile := some (some catB) }

/-- C1: in development mode the query operations do lazily call
`load_index`, and that call succeeds and returns the freshly scanned
catalog (with module `openai` and category `models`) — but because the
development path of `load_index` never assigns `self.index_data`, all
four query operations then return the empty result instead of that
catalog's contents, leaving the memo unset. -/
theorem claim_C1_dev_mode_queries_return_empty :
    (loadIndex devS wScan false).1 = .ok openaiCat ∧
    dkeys openaiCat.modules = ["openai"] ∧
    dkeys openaiCat.categories = ["models"] ∧
    getAvailableModules devS wScan false = (.ok [], devS, wScan) ∧
    getAvailableCategories devS wScan false = (.ok [], devS, wScan) ∧
    getComponentsInModule "openai" devS wScan false = (.ok [], devS, wScan) ∧
    getComponentsInCategory "models" devS wScan false = (.ok [], devS, wScan) := by
  decide

/-- C2 counterexample: after a first successful `load_index` (which
loaded `catA` from the builtin file and memoized it in `index_data`), a
second `load_index` call on the very same loader re-reads the builtin
file: against a world whose builtin file now holds `catB`, it returns
`catB`, not the memoized `catA`. -/
theorem claim_C2_counterexample :
    (loadIndex prodS wBuiltinA false).1 = .ok catA ∧
    ((loadIndex prodS wBuiltinA false).2.1).indexData = some catA ∧
    (loadIndex ((loadIndex prodS wBuiltinA false).2.1) wBuiltinB false).1 = .ok catB ∧
    catB ≠ catA := by
  decide

/-- The catalog tier 3 builds from a world's components directory. -/
def builtCatalog (w : World) (fs : FileSys) : Catalog :=
  scanComponents w.componentsPathStr fs w.cwd

/-- C2 (amended): `load_index` is *not* memoized — it never consults
`index_data`, so every call re-runs the tier strategy against the
current files (the un-memoized behaviour is exhibited by the
counterexample).  What does hold, in the built-and-cached scenario: a
first production call with no builtin and no cache scans, adopts the
result, memoizes it in `index_data` (consulted only by the query
operations) and writes it to the cache file; a second call then returns
the cache file's catalog — the built one up to mapping re-ordering —
without rescanning (it succeeds even with the components directory
gone), and whatever the builtin file holds at that moment wins over the
memo. -/
theorem claim_C2_load_index_not_memoized (s : LoaderSt) (w : World) (fs : FileSys)
    (hdev : s.developmentMode = false)
    (hip : s.indexPathSet = true) (hcp : s.cachePathSet = true)
    (hb : w.builtinFile = none) (hc : w.cacheFile = none)
    (hfs : w.componentsFs = some fs) (hwf : w.writeFails = false) :
    loadIndex s w false =
      (.ok (builtCatalog w fs),
       { s with indexData := some (builtCatalog w fs) },
       { w with cacheFile := some (some (saveLoad (builtCatalog w fs))) }) ∧
    (∀ cb : Catalog,
      (loadIndex { s with indexData := some (builtCatalog w fs) }
        { w with builtinFile := some (some cb),
                 cacheFile := some (some (saveLoad (builtCatalog w fs))) }
        false).1 = .ok cb) ∧
    (loadIndex { s with indexData := some (builtCatalog w fs) }
        { w with componentsFs := none,
                 cacheFile := some (some (saveLoad (builtCatalog w fs))) }
        false).1 = .ok (saveLoad (builtCatalog w fs)) := by
  have hbc : buildAndCacheIndex s w =
      (some (builtCatalog w fs),
       { w with cacheFile := some (some (saveLoad (builtCatalog w fs))) }) := by
    simp [buildAndCacheIndex, builtCatalog, hip, hfs, hcp, hwf, scan_validate]
  refine ⟨?_, ?_, ?_⟩
  · simp [loadIndex, hdev, loadProductionMode, tryLoadBuiltinIndex, tryLoadCachedIndex,
      hb, hc, hip, hcp, hbc]
  · intro cb
    simp [loadIndex, hdev, loadProductionMode, tryLoadBuiltinIndex, hip]
  · simp [loadIndex, hdev, loadProductionMode, tryLoadBuiltinIndex, tryLoadCachedIndex,
      hb, hip, hcp]

/-- C2 witness: the amended theorem at the concrete one-module world. -/
theorem claim_C2_witness :
    (loadIndex prodS wScan false).1 = .ok openaiCat ∧
    (loadIndex { prodS with indexData := some openaiCat }
      { wScan with componentsFs := none,
                   cacheFile := some (some (saveLoad openaiCat)) } false).1 =
      .ok (saveLoad openaiCat) := by
  have h := claim_C2_load_index_not_memoized prodS wScan fsOpenai rfl rfl rfl rfl rfl rfl rfl
  refine ⟨?_, h.2.2⟩
  rw [h.1]
  rfl


/-- Tier 3 persists the built catalog to the cache path whenever one is
configured and the write does not fail. -/
theorem buildAndCache_writes_cache (s : LoaderSt) (w : World) (c : Catalog) (w2 : World)
    (hbc : buildAndCacheIndex s w = (some c, w2))
    (hcp : s.cachePathSet = true) (hwf : w.writeFails = false) :
    w2.cacheFile = some (some (saveLoad c)) := by
  unfold buildAndCacheIndex at hbc
  by_cases hip : s.indexPathSet
  · rw [if_pos hip] at hbc
    cases hfs : w.componentsFs with
    | none => rw [hfs] at hbc; simp at hbc
    | some fs =>
      rw [hfs] at hbc
      dsimp only at hbc
      rw [if_pos (scan_validate w.componentsPathStr fs w.cwd), if_pos hcp, if_neg (by rw [hwf]; simp)] at hbc
      obtain ⟨hc1, hc2⟩ := Prod.mk.injEq .. ▸ hbc
      injection hc1 with hc1
      rw [← hc2, ← hc1]
  · rw [if_neg hip] at hbc
    simp at hbc

/-- C3: with development mode off, `load_index` attempts strictly in
order (1) the built-in catalog file, (2) the user-cache catalog file,
(3) a fresh scan that is validated and persisted to the cache path; it
returns (and memoizes) the first tier's catalog that succeeds, and the
fatal no-usable-index error is raised exactly when all three tiers
fail. -/
theorem claim_C3_production_three_tiers (s : LoaderSt) (w : World) (ff : Bool)
    (hdev : s.developmentMode = false) :
    (∀ c, tryLoadBuiltinIndex s w = some c →
      loadIndex s w ff = (.ok c, { s with indexData := some c }, w)) ∧
    (tryLoadBuiltinIndex s w = none →
      ∀ c, tryLoadCachedIndex s w = some c →
        loadIndex s w ff = (.ok c, { s with indexData := some c }, w)) ∧
    (tryLoadBuiltinIndex s w = none → tryLoadCachedIndex s w = none →
      ∀ c w2, buildAndCacheIndex s w = (some c, w2) →
        loadIndex s w ff = (.ok c, { s with indexData := some c }, w2) ∧
        (s.cachePathSet = true → w.writeFails = false →
          w2.cacheFile = some (some (saveLoad c)))) ∧
    ((loadIndex s w ff).1 = .error () ↔
      tryLoadBuiltinIndex s w = none ∧ tryLoadCachedIndex s w = none ∧
      (buildAndCacheIndex s w).1 = none) := by
  refine ⟨?_, ?_, ?_, ?_⟩
  · intro c hc
    simp [loadIndex, hdev, loadProductionMode, hc]
  · intro h1 c hc
    simp [loadIndex, hdev, loadProductionMode, h1, hc]
  · intro h1 h2 c w2 hbc
    refine ⟨by simp [loadIndex, hdev, loadProductionMode, h1, h2, hbc], ?_⟩
    intro hcp hwf
    exact buildAndCache_writes_cache s w c w2 hbc hcp hwf
  · constructor
    · intro h
      cases hb : tryLoadBuiltinIndex s w with
      | some c => simp [loadIndex, hdev, loadProductionMode, hb] at h
      | none =>
        cases hc2 : tryLoadCachedIndex s w with
        | some c => simp [loadIndex, hdev, loadProductionMode, hb, hc2] at h
        | none =>
          cases hbc : buildAndCacheIndex s w with
          | mk oc w2 =>
            cases oc with
            | some c => simp [loadIndex, hdev, loadProductionMode, hb, hc2, hbc] at h
            | none => exact ⟨rfl, rfl, rfl⟩
    · rintro ⟨h1, h2, h3⟩
      cases hbc : buildAndCacheIndex s w with
      | mk oc w2 =>
        rw [hbc] at h3
        cases oc with
        | some c => simp at h3
        | none => simp [loadIndex, hdev, loadProductionMode, h1, h2, hbc]

/-- C3 witness: with the builtin file present, `load_index` returns its
catalog and memoizes it. -/
theorem claim_C3_witness :
    loadIndex prodS wBuiltinA false = (.ok catA, { prodS with indexData := some catA }, wBuiltinA) :=
  (claim_C3_production_three_tiers prodS wBuiltinA false rfl).1 catA (by decide)

/-! ## C5 infrastructure: the selective filter builds exactly the
category-filtered sub-mappings -/

theorem modulesFold_spec (sel : List String) :
    ∀ (l : Dict ModuleDescriptor) (acc : Dict ModuleDescriptor) (n : Nat),
      (dkeys l).Nodup → (∀ k ∈ dkeys l, k ∉ dkeys acc) →
      l.foldl
        (fun (a : Dict ModuleDescriptor × Nat) kv =>
          if sel.contains kv.2.category then (dinsert kv.1 kv.2 a.1, a.2 + 1) else a)
        (acc, n) =
      (acc ++ l.filter (fun kv => sel.contains kv.2.category),
       n + (l.filter (fun kv => sel.contains kv.2.category)).length) := by
  intro l
  induction l with
  | nil => intro acc n _ _; simp
  | cons kv tl ih =>
    intro acc n hn hdisj
    simp only [dkeys, List.map_cons, List.nodup_cons] at hn
    have hmemc : ∀ k : String, k ∈ dkeys tl → k ∈ dkeys (kv :: tl) := by
      intro k hk
      exact List.mem_cons_of_mem _ hk
    rw [List.foldl_cons]
    by_cases hcat : sel.contains kv.2.category
    · have hfresh : kv.1 ∉ dkeys acc := hdisj kv.1 (List.mem_cons_self _ _)
      have hstep : dinsert kv.1 kv.2 acc = acc ++ [kv] := by
        rw [dinsert_of_not_mem _ hfresh]
      have hfc : List.filter (fun kv => sel.contains kv.2.category) (kv :: tl) =
          kv :: List.filter (fun kv => sel.contains kv.2.category) tl := by
        simp only [List.filter_cons]
        rw [if_pos (show (fun kv => sel.contains kv.2.category) kv = true from hcat)]
      have hdisj2 : ∀ k ∈ dkeys tl, k ∉ dkeys (acc ++ [kv]) := by
        intro k hk hka
        have hka2 : k ∈ dkeys acc ++ [kv.1] := by simpa [dkeys] using hka
        rcases List.mem_append.mp hka2 with h3 | h3
        · exact hdisj k (hmemc k hk) h3
        · exact hn.1 (List.mem_singleton.mp h3 ▸ hk)
      rw [if_pos hcat, hstep, ih (acc ++ [kv]) (n + 1) hn.2 hdisj2, hfc]
      simp only [Prod.mk.injEq]
      constructor
      · simp [List.append_assoc]
      · simp [Nat.add_assoc, Nat.add_comm 1]
    · have hfc : List.filter (fun kv => sel.contains kv.2.category) (kv :: tl) =
          List.filter (fun kv => sel.contains kv.2.category) tl := by
        simp only [List.filter_cons]
        rw [if_neg (show ¬ (fun kv => sel.contains kv.2.category) kv = true from hcat)]
      rw [if_neg hcat, ih acc n hn.2 (fun k hk => hdisj k (hmemc k hk)), hfc]

theorem componentsFold_spec (sel : List String) :
    ∀ (l : Dict ComponentDescriptor) (acc : Dict ComponentDescriptor)
      (cats : Dict (List String)) (n : Nat),
      (dkeys l).Nodup → (∀ k ∈ dkeys l, k ∉ dkeys acc) →
      (l.foldl
        (fun (a : Dict ComponentDescriptor × Dict (List String) × Nat) kv =>
          if sel.contains kv.2.category then
            (dinsert kv.1 kv.2 a.1, catBucketAppend kv.2.category kv.1 a.2.1, a.2.2 + 1)
          else a)
        (acc, cats, n)).1 =
        acc ++ l.filter (fun kv => sel.contains kv.2.category) ∧
      (l.foldl
        (fun (a : Dict ComponentDescriptor × Dict (List String) × Nat) kv =>
          if sel.contains kv.2.category then
            (dinsert kv.1 kv.2 a.1, catBucketAppend kv.2.category kv.1 a.2.1, a.2.2 + 1)
          else a)
        (acc, cats, n)).2.2 =
        n + (l.filter (fun kv => sel.contains kv.2.category)).length := by
  intro l
  induction l with
  | nil => intro acc cats n _ _; simp
  | cons kv tl ih =>
    intro acc cats n hn hdisj
    simp only [dkeys, List.map_cons, List.nodup_cons] at hn
    have hmemc : ∀ k : String, k ∈ dkeys tl → k ∈ dkeys (kv :: tl) := by
      intro k hk
      exact List.mem_cons_of_mem _ hk
    simp only [List.foldl_cons]
    by_cases hcat : sel.contains kv.2.category
    · have hfresh : kv.1 ∉ dkeys acc := hdisj kv.1 (List.mem_cons_self _ _)
      have hstep : dinsert kv.1 kv.2 acc = acc ++ [kv] := by
        rw [dinsert_of_not_mem _ hfresh]
      have hfc : List.filter (fun kv => sel.contains kv.2.category) (kv :: tl) =
          kv :: List.filter (fun kv => sel.contains kv.2.category) tl := by
        simp only [List.filter_cons]
        rw [if_pos (show (fun kv => sel.contains kv.2.category) kv = true from hcat)]
      have hdisj2 : ∀ k ∈ dkeys tl, k ∉ dkeys (acc ++ [kv]) := by
        intro k hk hka
        have hka2 : k ∈ dkeys acc ++ [kv.1] := by simpa [dkeys] using hka
        rcases List.mem_append.mp hka2 with h3 | h3
        · exact hdisj k (hmemc k hk) h3
        · exact hn.1 (List.mem_singleton.mp h3 ▸ hk)
      rw [if_pos hcat, hstep]
      obtain ⟨ha, hb⟩ := ih (acc ++ [kv]) (catBucketAppend kv.2.category kv.1 cats) (n + 1)
        hn.2 hdisj2
      rw [hfc]
      constructor
      · rw [ha]
        simp [List.append_assoc]
      · rw [hb]
        simp [Nat.add_assoc, Nat.add_comm 1]
    · have hfc : List.filter (fun kv => sel.contains kv.2.category) (kv :: tl) =
          List.filter (fun kv => sel.contains kv.2.category) tl := by
        simp only [List.filter_cons]
        rw [if_neg (show ¬ (fun kv => sel.contains kv.2.category) kv = true from hcat)]
      rw [if_neg hcat, hfc]
      exact ih acc cats n hn.2 (fun k hk => hdisj k (hmemc k hk))

/-- What `_build_selective_index`\'s filter passes compute, for a
unique-keyed full catalog. -/
theorem filterIndex_spec (sel : List String) (full : Catalog)
    (hc : (dkeys full.components).Nodup) (hm : (dkeys full.modules).Nodup) :
    (filterIndex sel full).components =
      full.components.filter (fun kv => sel.contains kv.2.category) ∧
    (filterIndex sel full).modules =
      full.modules.filter (fun kv => sel.contains kv.2.category) ∧
    (filterIndex sel full).metadata.total_components =
      (filterIndex sel full).components.length ∧
    (filterIndex sel full).metadata.total_modules =
      (filterIndex sel full).modules.length ∧
    (filterIndex sel full).metadata.selective_modules = some sel := by
  have hms := modulesFold_spec sel full.modules [] 0 hm (by simp [dkeys])
  have hcs := componentsFold_spec sel full.components [] [] 0 hc (by simp [dkeys])
  unfold filterIndex
  dsimp only
  rw [hms, hcs.1, hcs.2]
  dsimp only
  refine ⟨by simp, by simp, by simp, by simp, rfl⟩

/-- Inverting a successful `_build_full_index`: the catalog is exactly a
scan of the components directory. -/
theorem buildFullIndex_ok_inv (s : LoaderSt) (w : World) (full : Catalog)
    (h : buildFullIndex s w = .ok full) :
    ∃ fs, w.componentsFs = some fs ∧
      full = scanComponents w.componentsPathStr fs w.cwd := by
  unfold buildFullIndex at h
  by_cases hip : s.indexPathSet
  · rw [if_pos hip] at h
    cases hfs : w.componentsFs with
    | none => rw [hfs] at h; simp at h
    | some fs =>
      rw [hfs] at h
      dsimp only at h
      rw [if_pos (scan_validate w.componentsPathStr fs w.cwd)] at h
      injection h with h
      exact ⟨fs, rfl, h.symm⟩
  · rw [if_neg hip] at h
    simp at h

/-- C5: in development mode with a non-empty category allow-list, once
the full scan succeeds, `load_index` returns the filtered copy, which
keeps exactly the components and modules of the full catalog whose
category is in the allow-list, records the surviving counts in
`metadata.total_components` / `metadata.total_modules`, and records the
selected-category list in `metadata.selective_modules`. -/
theorem claim_C5_selective_filtering (s : LoaderSt) (w : World) (full : Catalog)
    (hdev : s.developmentMode = true) (hsel : s.selectiveModules ≠ [])
    (hfull : buildFullIndex s w = .ok full) :
    (loadIndex s w false).1 = .ok (filterIndex s.selectiveModules full) ∧
    (filterIndex s.selectiveModules full).components =
      full.components.filter (fun kv => s.selectiveModules.contains kv.2.category) ∧
    (filterIndex s.selectiveModules full).modules =
      full.modules.filter (fun kv => s.selectiveModules.contains kv.2.category) ∧
    (filterIndex s.selectiveModules full).metadata.total_components =
      (filterIndex s.selectiveModules full).components.length ∧
    (filterIndex s.selectiveModules full).metadata.total_modules =
      (filterIndex s.selectiveModules full).modules.length ∧
    (filterIndex s.selectiveModules full).metadata.selective_modules =
      some s.selectiveModules := by
  obtain ⟨fs, hfs, hfulleq⟩ := buildFullIndex_ok_inv s w full hfull
  have hnodup := scan_nodup w.componentsPathStr fs w.cwd
  have hspec := filterIndex_spec s.selectiveModules full
    (hfulleq ▸ hnodup.1) (hfulleq ▸ hnodup.2)
  have hne : s.selectiveModules.isEmpty = false := by
    cases hsl : s.selectiveModules with
    | nil => exact absurd hsl hsel
    | cons a l => rfl
  refine ⟨?_, hspec.1, hspec.2.1, hspec.2.2.1, hspec.2.2.2.1, hspec.2.2.2.2⟩
  simp [loadIndex, hdev, loadDevelopmentMode, buildSelectiveIndex, hne, hfull]

/-- The loader state for a `WFX_DEV=models` run. -/
def selS : LoaderSt := { devS with selectiveModules := ["models"] }

/-- C5 witness: the selective development load over the one-module world
returns the catalog filtered to the `models` category. -/
theorem claim_C5_witness :
    (loadIndex selS wScan false).1 = .ok (filterIndex ["models"] openaiCat) ∧
    (filterIndex ["models"] openaiCat).metadata.selective_modules = some ["models"] :=
  ⟨(claim_C5_selective_filtering selS wScan openaiCat rfl (by decide) (by decide)).1,
   (claim_C5_selective_filtering selS wScan openaiCat rfl (by decide) (by decide)).2.2.2.2.2⟩

/-- C6: everything in `_build_selective_index`, the initial full build
included, runs inside one `try` whose handler falls back to an
unfiltered full build.  Hence whenever the full scan succeeds, a
filter-step failure makes selective-mode `load_index` return the
unfiltered full catalog, and selective-mode `load_index` returns some
catalog rather than raising, whether or not the filter step fails. -/
theorem claim_C6_filter_failure_falls_back (s : LoaderSt) (w : World) (full : Catalog)
    (hdev : s.developmentMode = true) (hsel : s.selectiveModules ≠ [])
    (hfull : buildFullIndex s w = .ok full) :
    (loadIndex s w true).1 = .ok full ∧
    ∀ ff, ∃ c, (loadIndex s w ff).1 = .ok c := by
  have hne : s.selectiveModules.isEmpty = false := by
    cases hsl : s.selectiveModules with
    | nil => exact absurd hsl hsel
    | cons a l => rfl
  constructor
  · simp [loadIndex, hdev, loadDevelopmentMode, buildSelectiveIndex, hne, hfull]
  · intro ff
    cases ff with
    | true =>
      exact ⟨full, by simp [loadIndex, hdev, loadDevelopmentMode, buildSelectiveIndex, hne, hfull]⟩
    | false =>
      exact ⟨filterIndex s.selectiveModules full,
        by simp [loadIndex, hdev, loadDevelopmentMode, buildSelectiveIndex, hne, hfull]⟩

/-- C6 witness: with a failing filter step, the selective load returns
the unfiltered scanned catalog. -/
theorem claim_C6_witness :
    (loadIndex selS wScan true).1 = .ok openaiCat :=
  (claim_C6_filter_failure_falls_back selS wScan openaiCat rfl (by decide) (by decide)).1

/-- C9 counterexample: `"tRUE"` *is* `"true"` in some casing, yet the
code only special-cases the spellings `"1"/"true"/"True"/"TRUE"`, so
`WFX_DEV=tRUE` yields development mode with the non-empty allow-list
`{"true"}` rather than full-rebuild mode with an empty allow-list. -/
theorem claim_C9_counterexample :
    pyLower "tRUE" = "true" ∧ parseDevEnv "tRUE" = (true, ["true"]) ∧
    (parseDevEnv "tRUE").2 ≠ [] := by
  decide

/-- C9 (amended): an unset/empty value turns development mode off; the
four exact spellings `"1"`, `"true"`, `"True"`, `"TRUE"` (not arbitrary
casings) give full-rebuild development mode with an empty allow-list;
any other non-empty value gives development mode with the value split on
commas, each item stripped, empties dropped, lowercased, and
deduplicated as the allow-list. -/
theorem claim_C9_amended_env_parsing (v : String) :
    parseDevEnv "" = (false, []) ∧
    (v ∈ ["1", "true", "True", "TRUE"] → parseDevEnv v = (true, [])) ∧
    (v ≠ "" → v ∉ ["1", "true", "True", "TRUE"] →
      parseDevEnv v =
        (true, pySetOfList
          ((((pySplitSub "," v).map pyStrip).filter (· ≠ "")).map pyLower))) := by
  refine ⟨by decide, ?_, ?_⟩
  · intro hv
    simp only [List.mem_cons, List.not_mem_nil, or_false] at hv
    rcases hv with rfl | rfl | rfl | rfl <;> decide
  · intro hne hnotin
    have hcont : ¬ ((["1", "true", "True", "TRUE"] : List String).contains v = true) := by
      intro h
      exact hnotin (List.mem_of_elem_eq_true h)
    unfold parseDevEnv
    rw [if_pos hne, if_neg hcont]

/-- C9 witness: the amended parsing at `"TRUE"` and at a mixed list. -/
theorem claim_C9_witness :
    parseDevEnv "TRUE" = (true, []) ∧
    parseDevEnv "Models, SEARCH" = (true, ["models", "search"]) := by
  refine ⟨(claim_C9_amended_env_parsing "TRUE").2.1 (by decide), ?_⟩
  have h := (claim_C9_amended_env_parsing "Models, SEARCH").2.2 (by decide) (by decide)
  rw [h]
  decide

/-- C10: the `category_map` dict literal lists `google` both under the
model providers and under search, and `azure` both under the model
providers and under cloud; the later entry wins in a Python dict
literal, so classification (which lowercases its argument first) sends
every casing of `google` to `"search"` and every casing of `azure` to
`"cloud"`, never `"models"`. -/
theorem claim_C10_duplicate_table_entries :
    ("google", "models") ∈ categoryMapEntries ∧
    ("google", "search") ∈ categoryMapEntries ∧
    ("azure", "models") ∈ categoryMapEntries ∧
    ("azure", "cloud") ∈ categoryMapEntries ∧
    dget "google" categoryMap = some "search" ∧
    dget "azure" categoryMap = some "cloud" ∧
    (∀ m : String, pyLower m = "google" → getCategoryFromModule m = "search") ∧
    (∀ m : String, pyLower m = "azure" → getCategoryFromModule m = "cloud") := by
  refine ⟨by decide, by decide, by decide, by decide, by decide, by decide, ?_, ?_⟩
  · intro m hm
    unfold getCategoryFromModule
    rw [hm]
    decide
  · intro m hm
    unfold getCategoryFromModule
    rw [hm]
    decide

/-- C10 witness: mixed casings of the two duplicated module names. -/
theorem claim_C10_witness :
    getCategoryFromModule "GoOgLe" = "search" ∧
    getCategoryFromModule "AzUrE" = "cloud" :=
  ⟨claim_C10_duplicate_table_entries.2.2.2.2.2.2.1 "GoOgLe" (by decide),
   claim_C10_duplicate_table_entries.2.2.2.2.2.2.2 "AzUrE" (by decide)⟩
